import Mathlib

/-!
A shallow embedding of the KCL language-server coordination core
(`kclvm/tools/src/LSP/src/state.rs`) and proofs about its behaviour.

Hash maps of the Rust code are modelled as association lists with
replace-on-insert semantics; panics (Rust `unwrap`) are modelled by
returning `none`; the external capabilities (URL conversion, workspace
discovery, the compiler, diagnostic conversion) are parameters gathered
in a `Caps` record, since the core only calls them through their
interfaces.
-/

set_option maxHeartbeats 1000000

namespace KclLsp

/-- Stable file identifier assigned by the VFS. -/
abbrev FileId := Nat

/-- Workspace key (`WorkSpaceKind` in the source); only equality matters. -/
abbrev WorkSpaceKind := String

/-- A file-system path, as a string. -/
abbrev Path := String

/-- A URL, as a string. -/
abbrev Url := String

/-- An opaque KCL diagnostic. -/
abbrev Diag := Nat

/-- The `CompileUnitOptions`: input file list plus an opaque build-option record. -/
structure CompileUnitOptions where
  files : List Path
  buildOpts : Nat
  deriving DecidableEq

/-- The `ChangeKind` of a VFS change. -/
inductive ChangeKind where
  | Create
  | Modify
  | Delete
  deriving DecidableEq

/-- A VFS `ChangedFile` event. -/
structure ChangedFile where
  file_id : FileId
  change_kind : ChangeKind
  deriving DecidableEq

/-- The product of one successful compile: the program (modelled by the set
of module paths it contains), an opaque global state, and the diagnostics. -/
structure AnalysisDatabase where
  prog : List Path
  gs : Nat
  diags : List Diag
  deriving DecidableEq

/-- The per-workspace analysis state machine. -/
inductive DBState where
  | Init
  | Compiling (db : AnalysisDatabase)
  | Ready (db : AnalysisDatabase)
  deriving DecidableEq

/-- Per open file: the set of workspaces compiled from it (`IndexSet`,
modelled as an insertion-ordered duplicate-free list). -/
structure OpenFileInfo where
  workspaces : List WorkSpaceKind
  deriving DecidableEq

/-- Internal tasks sent on the task bus that the modelled code emits. -/
inductive Task where
  | ChangedFile (fid : FileId) (kind : ChangeKind)
  deriving DecidableEq

/-- A compile job as captured by `async_compile` when it is handed to the
thread pool. -/
structure CompileJob where
  workspace : WorkSpaceKind
  opts : CompileUnitOptions
  changedFileId : Option FileId
  temp : Bool
  filename : Path
  deriving DecidableEq

/-- A compile job that has started running: it has read the old diagnostics
from the registry and performed the start-of-job registry transition. -/
structure RunningJob where
  job : CompileJob
  oldDiags : List Diag
  deriving DecidableEq

/-! ### Association-list maps (the Rust `HashMap`s) -/

/-- Lookup in an association list (`HashMap::get`). -/
def alookup {α β : Type} [DecidableEq α] : List (α × β) → α → Option β
  | [], _ => none
  | (k, v) :: rest, key => if key = k then some v else alookup rest key

/-- Remove a key from an association list (`HashMap::remove`). -/
def aremove {α β : Type} [DecidableEq α] (m : List (α × β)) (k : α) : List (α × β) :=
  m.filter (fun p => p.1 ≠ k)

/-- Insert/replace a binding (`HashMap::insert`). -/
def ainsert {α β : Type} [DecidableEq α] (m : List (α × β)) (k : α) (v : β) : List (α × β) :=
  (k, v) :: aremove m k

theorem alookup_aremove_self {α β : Type} [DecidableEq α] (m : List (α × β)) (k : α) :
    alookup (aremove m k) k = none := by
  induction m with
  | nil => rfl
  | cons p rest ih =>
    by_cases h : p.1 = k
    · simpa [aremove, h] using ih
    · obtain ⟨a, b⟩ := p
      simp only at h
      simp [aremove, alookup, h, Ne.symm h] at ih ⊢
      simpa [aremove] using ih

theorem alookup_aremove_ne {α β : Type} [DecidableEq α] (m : List (α × β)) (k k' : α)
    (h : k' ≠ k) : alookup (aremove m k) k' = alookup m k' := by
  induction m with
  | nil => rfl
  | cons p rest ih =>
    obtain ⟨a, b⟩ := p
    by_cases ha : a = k
    · subst ha
      simp [aremove, alookup, h] at ih ⊢
      simpa [aremove] using ih
    · by_cases hk : k' = a
      · subst hk
        simp [aremove, alookup, ha]
      · simp [aremove, alookup, ha, hk] at ih ⊢
        simpa [aremove] using ih

theorem alookup_ainsert_self {α β : Type} [DecidableEq α] (m : List (α × β)) (k : α) (v : β) :
    alookup (ainsert m k v) k = some v := by
  simp [ainsert, alookup]

theorem alookup_ainsert_ne {α β : Type} [DecidableEq α] (m : List (α × β)) (k k' : α) (v : β)
    (h : k' ≠ k) : alookup (ainsert m k v) k' = alookup m k' := by
  simp [ainsert, alookup, h, alookup_aremove_ne m k k' h]

theorem alookup_ainsert_same {α β : Type} [DecidableEq α] (m : List (α × β)) (k : α) (v : β)
    (h : alookup m k = some v) (k' : α) : alookup (ainsert m k v) k' = alookup m k' := by
  by_cases hk : k' = k
  · subst hk; simp [alookup_ainsert_self, h]
  · exact alookup_ainsert_ne m k k' v hk

theorem alookup_isSome_of_mem {α β : Type} [DecidableEq α] {m : List (α × β)} {k : α} {v : β}
    (h : (k, v) ∈ m) : (alookup m k).isSome := by
  induction m with
  | nil => simp at h
  | cons p rest ih =>
    obtain ⟨a, b⟩ := p
    rcases List.mem_cons.mp h with h1 | h1
    · obtain ⟨rfl, rfl⟩ := Prod.mk.injEq .. ▸ h1
      simp [alookup]
    · by_cases hk : k = a
      · simp [alookup, hk]
      · simpa [alookup, hk] using ih h1

theorem mem_of_alookup_eq_some {α β : Type} [DecidableEq α] {m : List (α × β)} {k : α} {v : β}
    (h : alookup m k = some v) : (k, v) ∈ m := by
  induction m with
  | nil => simp [alookup] at h
  | cons p rest ih =>
    obtain ⟨a, b⟩ := p
    by_cases hk : k = a
    · subst hk
      simp [alookup] at h
      simp [h]
    · simp [alookup, hk] at h
      exact List.mem_cons_of_mem _ (ih h)

/-- Duplicate-free keys for an association list. -/
def NodupKeys {α β : Type} (m : List (α × β)) : Prop := (m.map Prod.fst).Nodup

theorem nodupKeys_aremove {α β : Type} [DecidableEq α] {m : List (α × β)} (h : NodupKeys m)
    (k : α) : NodupKeys (aremove m k) := by
  unfold NodupKeys aremove at *
  exact List.Nodup.sublist (List.Sublist.map Prod.fst (List.filter_sublist m)) h

theorem nodupKeys_ainsert {α β : Type} [DecidableEq α] {m : List (α × β)} (h : NodupKeys m)
    (k : α) (v : β) : NodupKeys (ainsert m k v) := by
  unfold NodupKeys ainsert
  refine List.nodup_cons.mpr ⟨?_, nodupKeys_aremove h k⟩
  intro hmem
  obtain ⟨⟨a, b⟩, hab, rfl⟩ := List.mem_map.mp hmem
  have := List.of_mem_filter hab
  simp at this

theorem alookup_eq_some_of_mem_nodup {α β : Type} [DecidableEq α] {m : List (α × β)}
    (hn : NodupKeys m) {k : α} {v : β} (h : (k, v) ∈ m) : alookup m k = some v := by
  induction m with
  | nil => simp at h
  | cons p rest ih =>
    obtain ⟨a, b⟩ := p
    have hn' : NodupKeys rest := (List.nodup_cons.mp hn).2
    rcases List.mem_cons.mp h with h1 | h1
    · obtain ⟨rfl, rfl⟩ := Prod.mk.injEq .. ▸ h1
      simp [alookup]
    · by_cases hk : k = a
      · subst hk
        exact absurd (List.mem_map.mpr ⟨(k, v), h1, rfl⟩) (List.nodup_cons.mp hn).1
      · simpa [alookup, hk] using ih hn' h1

/-! ### The language-server state and external capabilities -/

/-- The parts of `LanguageServerState` that the modelled operations touch.
`tasks` records messages sent on the task bus, `jobs` the compile jobs
handed to the thread pool but not yet started, `running` the started jobs,
and `sent` the `publishDiagnostics` notifications emitted so far. -/
structure ServerState where
  vfs : List (FileId × Path)
  workspaces : List (WorkSpaceKind × DBState)
  openedFiles : List (FileId × OpenFileInfo)
  temporaryWorkspace : List (FileId × Option WorkSpaceKind)
  workspaceConfigCache : List (WorkSpaceKind × CompileUnitOptions)
  tasks : List Task
  jobs : List CompileJob
  running : List RunningJob
  sent : List (Url × List Diag)
  deriving DecidableEq

/-- The external capabilities the core calls through fixed interfaces:
URL conversion (`url_from_path`, `none` = `Err`), workspace discovery
(`lookup_compile_workspaces`, failures dropped after logging), the compiler
capability, and per-diagnostic LSP conversion (`kcl_diag_to_lsp_diags`,
which yields lists of LSP diagnostics keyed by file path). -/
structure Caps where
  urlFromPath : Path → Option Url
  lookupWorkspaces : Path → List (WorkSpaceKind × CompileUnitOptions)
  compiler : CompileUnitOptions → Path → List Diag × Except Unit (List Path × Nat)
  toLsp : Diag → List (Path × List Diag)

/-- Rust `get_file_name(vfs, id)` as used with `unwrap_or("")` in `async_compile`. -/
def fileNameOf (s : ServerState) : Option FileId → Path
  | some id => (alookup s.vfs id).getD ""
  | none => ""

/-- Rust `async_compile`: records the workspace options in
`workspace_config_cache`, then submits a compile job to the thread pool. -/
def asyncCompile (s : ServerState) (workspace : WorkSpaceKind) (opts : CompileUnitOptions)
    (changedFileId : Option FileId) (temp : Bool) : ServerState :=
  { s with
    workspaceConfigCache := ainsert s.workspaceConfigCache workspace opts
    jobs := s.jobs ++ [⟨workspace, opts, changedFileId, temp, fileNameOf s changedFileId⟩] }

/-- The diagnostics a job reads at start (`old_diags`): those of the current
`Ready` or `Compiling` database, empty for `Init` or a missing entry. -/
def readOldDiags (ws : List (WorkSpaceKind × DBState)) (w : WorkSpaceKind) : List Diag :=
  match alookup ws w with
  | some (DBState.Ready db) => db.diags
  | some (DBState.Compiling db) => db.diags
  | some DBState.Init => []
  | none => []

/-- The start-of-job registry transition in `async_compile`'s job body:
`Ready(db)` becomes `Compiling(db)`, `Compiling` and `Init` are rewritten
unchanged, and a missing entry is inserted as `Init`. -/
def jobStartDB (w : WorkSpaceKind) (ws : List (WorkSpaceKind × DBState)) :
    List (WorkSpaceKind × DBState) :=
  let st := match alookup ws w with
    | some (DBState.Ready db) => DBState.Compiling db
    | some (DBState.Compiling db) => DBState.Compiling db
    | some DBState.Init => DBState.Init
    | none => DBState.Init
  ainsert ws w st

/-- A pending job starts running: read `old_diags`, perform the registry
transition, and move the job to the running set. -/
def jobStart (s : ServerState) (job : CompileJob) : ServerState :=
  { s with
    jobs := s.jobs.erase job
    running := s.running ++ [⟨job, readOldDiags s.workspaces job.workspace⟩]
    workspaces := jobStartDB job.workspace s.workspaces }

/-- Rust `entry(key).or_insert(vec![]).extend(value)`: extend the entry's list,
inserting it first when absent. -/
def extendEntry (m : List (Path × List Diag)) (k : Path) (v : List Diag) :
    List (Path × List Diag) :=
  match alookup m k with
  | some old => ainsert m k (old ++ v)
  | none => ainsert m k v

/-- Build `old_diags_maps` / `new_diags_maps`: fold every diagnostic through
`kcl_diag_to_lsp_diags` and merge the per-file lists. -/
def buildDiagsMap (toLsp : Diag → List (Path × List Diag)) (diags : List Diag) :
    List (Path × List Diag) :=
  diags.foldl (fun m d => (toLsp d).foldl (fun m kv => extendEntry m kv.1 kv.2) m) []

/-- The diagnostics publications of one job: an empty list for every file of
the old map missing from the new map, then the new map's list for every file
of the new map; files whose path has no URL are skipped. -/
def publishList (urlFromPath : Path → Option Url) (oldM newM : List (Path × List Diag)) :
    List (Url × List Diag) :=
  oldM.filterMap
      (fun fd => if (alookup newM fd.1).isSome then none
                 else (urlFromPath fd.1).map (fun uri => (uri, ([] : List Diag))))
    ++ newM.filterMap (fun fd => (urlFromPath fd.1).map (fun uri => (uri, fd.2)))

/-- A running job finishes: call the compiler, publish the diagnostics diff,
then install `Ready` (and resolve the temporary-workspace placeholder) on
success, or drop the workspace (and the placeholder) on failure. -/
def jobFinish (c : Caps) (s : ServerState) (rj : RunningJob) : ServerState :=
  let res := c.compiler rj.job.opts rj.job.filename
  let diags := res.1
  let oldMap := buildDiagsMap c.toLsp rj.oldDiags
  let newMap := buildDiagsMap c.toLsp diags
  let s1 := { s with
    running := s.running.erase rj
    sent := s.sent ++ publishList c.urlFromPath oldMap newMap }
  match res.2 with
  | Except.ok pg =>
    let s2 := { s1 with
      workspaces := ainsert s1.workspaces rj.job.workspace
        (DBState.Ready ⟨pg.1, pg.2, diags⟩) }
    if rj.job.temp then
      match rj.job.changedFileId with
      | some fid =>
        { s2 with
          temporaryWorkspace := ainsert s2.temporaryWorkspace fid (some rj.job.workspace) }
      | none => s2
    else s2
  | Except.error _ =>
    let s2 := { s1 with workspaces := aremove s1.workspaces rj.job.workspace }
    if rj.job.temp then
      match rj.job.changedFileId with
      | some fid =>
        { s2 with temporaryWorkspace := aremove s2.temporaryWorkspace fid }
      | none => s2
    else s2

/-- Rust `IndexSet::insert`: append if not already present. -/
def insertIdem (l : List WorkSpaceKind) (w : WorkSpaceKind) : List WorkSpaceKind :=
  if w ∈ l then l else l ++ [w]

/-- The scan over the registry in the `Create` branch: for a `Ready`
database containing the file, record the workspace into the opened file's
set (panicking, as the code's `unwrap` does, when the file has no
`opened_files` entry); for `Compiling` or `Init`, post a retry task. -/
def createScan (p : Path) (fid : FileId) :
    List (WorkSpaceKind × DBState) → List (FileId × OpenFileInfo) → List Task → Bool →
    Option (List (FileId × OpenFileInfo) × List Task × Bool)
  | [], opened, tasks, contains => some (opened, tasks, contains)
  | (w, st) :: rest, opened, tasks, contains =>
    match st with
    | DBState.Ready db =>
      if p ∈ db.prog then
        match alookup opened fid with
        | none => none
        | some info =>
          createScan p fid rest (ainsert opened fid ⟨insertIdem info.workspaces w⟩) tasks true
      else createScan p fid rest opened tasks contains
    | DBState.Compiling _ =>
      createScan p fid rest opened (tasks ++ [Task.ChangedFile fid ChangeKind.Create]) contains
    | DBState.Init =>
      createScan p fid rest opened (tasks ++ [Task.ChangedFile fid ChangeKind.Create]) contains

/-- The `ChangeKind::Create` branch of `process_changed_file`. `none` is a
panic (the `unwrap` on `url_from_path` or on the `opened_files` entry); an
unresolvable `FileId` is logged and dropped. -/
def processCreate (c : Caps) (fid : FileId) (s : ServerState) : Option ServerState :=
  match alookup s.vfs fid with
  | none => some s
  | some filename =>
    match c.urlFromPath filename with
    | none => none
    | some _ =>
      let tw1 := ainsert s.temporaryWorkspace fid none
      match createScan filename fid s.workspaces s.openedFiles s.tasks false with
      | none => none
      | some (opened2, tasks2, contains) =>
        if contains then
          some { s with openedFiles := opened2, tasks := tasks2,
                        temporaryWorkspace := aremove tw1 fid }
        else
          let s1 := (c.lookupWorkspaces filename).foldl
            (fun st wo => asyncCompile st wo.1 wo.2 (some fid) true)
            { s with openedFiles := opened2, tasks := tasks2, temporaryWorkspace := tw1 }
          if (alookup s1.temporaryWorkspace fid).getD none = none then
            some { s1 with temporaryWorkspace := aremove s1.temporaryWorkspace fid }
          else
            some s1

/-- The per-workspace compile loop of the `Modify` branch: fetch the cached
options (panicking when absent, as the code's `unwrap` does) and schedule a
non-temporary compile. -/
def modifyCompiles (fid : FileId) :
    List WorkSpaceKind → ServerState → Option ServerState
  | [], s => some s
  | w :: rest, s =>
    match alookup s.workspaceConfigCache w with
    | none => none
    | some opts => modifyCompiles fid rest (asyncCompile s w opts (some fid) false)

/-- The `ChangeKind::Modify` branch of `process_changed_file`. `none` is a
panic (the `unwrap` on the `opened_files` entry or on the config cache). -/
def processModify (_c : Caps) (fid : FileId) (s : ServerState) : Option ServerState :=
  match alookup s.vfs fid with
  | none => some s
  | some _ =>
    match alookup s.openedFiles fid with
    | none => none
    | some info =>
      if info.workspaces.isEmpty then
        match alookup s.temporaryWorkspace fid with
        | some (some w) =>
          match alookup s.workspaceConfigCache w with
          | none => none
          | some opts => some (asyncCompile s w opts (some fid) true)
        | some none =>
          some { s with tasks := s.tasks ++ [Task.ChangedFile fid ChangeKind.Modify] }
        | none => some s
      else
        modifyCompiles fid info.workspaces s

/-- The `ChangeKind::Delete` branch of `process_changed_file`: drop the
temporary-workspace entry and, when it was resolved, the workspace itself. -/
def processDelete (fid : FileId) (s : ServerState) : ServerState :=
  match alookup s.temporaryWorkspace fid with
  | some entry =>
    let s1 := { s with temporaryWorkspace := aremove s.temporaryWorkspace fid }
    match entry with
    | some w => { s1 with workspaces := aremove s1.workspaces w }
    | none => s1
  | none => s

/-- Rust `process_changed_file`, dispatching on the change kind. -/
def process_changed_file (c : Caps) (file : ChangedFile) (s : ServerState) :
    Option ServerState :=
  match file.change_kind with
  | ChangeKind.Create => processCreate c file.file_id s
  | ChangeKind.Modify => processModify c file.file_id s
  | ChangeKind.Delete => some (processDelete file.file_id s)

/-! ### Request queue and `respond` -/

/-- An LSP response; only the request id and an opaque payload matter. -/
structure RespMsg where
  id : Nat
  payload : Nat
  deriving DecidableEq

/-- The incoming side of the `lsp_server` `ReqQueue`, modelled from the
spec: a pending table from request id to `(method, start)`; `register` adds
an entry, `complete` removes it and returns its data, and a request is
completed exactly when it is no longer pending. -/
structure ReqQueueIncoming where
  pending : List (Nat × (String × Nat))
  deriving DecidableEq

/-- Rust `register_request`: record `(method, start)` keyed by the request id. -/
def registerRequest (q : ReqQueueIncoming) (id : Nat) (method : String) (start : Nat) :
    ReqQueueIncoming :=
  ⟨ainsert q.pending id (method, start)⟩

/-- Marking a request completed (as a client cancel does): `complete` drops
it from the pending table. -/
def completeRequest (q : ReqQueueIncoming) (id : Nat) : ReqQueueIncoming :=
  ⟨aremove q.pending id⟩

/-- Rust `respond`: complete the response's id in the queue; when it was pending,
emit exactly the response message, otherwise send nothing. -/
def respond (q : ReqQueueIncoming) (resp : RespMsg) : ReqQueueIncoming × List RespMsg :=
  match alookup q.pending resp.id with
  | some _ => (⟨aremove q.pending resp.id⟩, [resp])
  | none => (q, [])

/-! ### Word-index construction at initialization -/

/-- An opaque word index for one folder. -/
abbrev WordIndex := Nat

/-- One workspace folder of the initialize parameters. -/
structure Folder where
  uri : Url
  deriving DecidableEq

/-- The fields of `InitializeParams` that `update_word_index_state` reads. -/
structure InitParams where
  workspace_folders : Option (List Folder)
  root_uri : Option Url
  deriving DecidableEq

/-- Rust `update_word_index_state`, parametric in `file_path_from_url` (whose
`Err` propagates through `?`) and `build_word_index` (whose `Err` is
silently skipped by `if let Ok(..)`). -/
def update_word_index_state (file_path_from_url : Url → Except Unit Path)
    (build_word_index : Path → Except Unit WordIndex) (params : InitParams)
    (m : List (Url × WordIndex)) : Except Unit (List (Url × WordIndex)) :=
  match params.workspace_folders with
  | some folders =>
    folders.foldlM
      (fun acc folder => do
        let path ← file_path_from_url folder.uri
        match build_word_index path with
        | Except.ok wi => pure (ainsert acc folder.uri wi)
        | Except.error _ => pure acc)
      m
  | none =>
    match params.root_uri with
    | some root => do
      let path ← file_path_from_url root
      match build_word_index path with
      | Except.ok wi => pure (ainsert m root wi)
      | Except.error _ => pure m
    | none => pure m

/-! ### The operation-level transition system -/

/-- The operations of the modelled core that touch the shared maps: an
initialization-time compile request, the three VFS change kinds, and the
start and finish of a pooled compile job. -/
inductive Op where
  | initCompile (w : WorkSpaceKind) (opts : CompileUnitOptions)
  | create (fid : FileId)
  | modify (fid : FileId)
  | delete (fid : FileId)
  | start (job : CompileJob)
  | finish (rj : RunningJob)

/-- Apply one operation; `none` means the operation is not enabled (a job
that is not pending cannot start) or the code panicked. -/
def applyOp (c : Caps) (op : Op) (s : ServerState) : Option ServerState :=
  match op with
  | Op.initCompile w opts => some (asyncCompile s w opts none false)
  | Op.create fid => processCreate c fid s
  | Op.modify fid => processModify c fid s
  | Op.delete fid => some (processDelete fid s)
  | Op.start job => if job ∈ s.jobs then some (jobStart s job) else none
  | Op.finish rj => if rj ∈ s.running then some (jobFinish c s rj) else none

/-- States reachable from a fresh server (arbitrary VFS and open-file table,
everything else as `init_state` leaves it: empty). -/
inductive Reachable (c : Caps) : ServerState → Prop where
  | init (vfs : List (FileId × Path)) (opened : List (FileId × OpenFileInfo)) :
      Reachable c ⟨vfs, [], opened, [], [], [], [], [], []⟩
  | step {s s2 : ServerState} (op : Op) (hs : Reachable c s) (h : applyOp c op s = some s2) :
      Reachable c s2

/-- The workspace-config-cache invariant: every pending or running compile
job's workspace, and every workspace whose registry state is `Compiling` or
`Ready`, has an entry in `workspace_config_cache`. -/
def CacheInv (s : ServerState) : Prop :=
  (∀ j ∈ s.jobs, (alookup s.workspaceConfigCache j.workspace).isSome)
  ∧ (∀ rj ∈ s.running, (alookup s.workspaceConfigCache rj.job.workspace).isSome)
  ∧ (∀ w db, alookup s.workspaces w = some (DBState.Compiling db)
        ∨ alookup s.workspaces w = some (DBState.Ready db) →
      (alookup s.workspaceConfigCache w).isSome)

/-! ### Lemmas about the compile job -/

theorem jobFinish_workspaces_eq (c : Caps) (s : ServerState) (rj : RunningJob) :
    (jobFinish c s rj).workspaces =
      match (c.compiler rj.job.opts rj.job.filename).2 with
      | Except.ok pg => ainsert s.workspaces rj.job.workspace
          (DBState.Ready ⟨pg.1, pg.2, (c.compiler rj.job.opts rj.job.filename).1⟩)
      | Except.error _ => aremove s.workspaces rj.job.workspace := by
  obtain ⟨⟨jw, jopts, jcf, jtemp, jfn⟩, jold⟩ := rj
  unfold jobFinish
  cases h : (c.compiler jopts jfn).2 with
  | ok pg => cases jtemp <;> cases jcf <;> simp [h]
  | error e => cases jtemp <;> cases jcf <;> simp [h]

theorem jobFinish_sent_eq (c : Caps) (s : ServerState) (rj : RunningJob) :
    (jobFinish c s rj).sent =
      s.sent ++ publishList c.urlFromPath (buildDiagsMap c.toLsp rj.oldDiags)
        (buildDiagsMap c.toLsp (c.compiler rj.job.opts rj.job.filename).1) := by
  obtain ⟨⟨jw, jopts, jcf, jtemp, jfn⟩, jold⟩ := rj
  unfold jobFinish
  cases h : (c.compiler jopts jfn).2 with
  | ok pg => cases jtemp <;> cases jcf <;> simp [h]
  | error e => cases jtemp <;> cases jcf <;> simp [h]

theorem jobFinish_tw_ok (c : Caps) (s : ServerState) (rj : RunningJob)
    {pg : List Path × Nat} (h : (c.compiler rj.job.opts rj.job.filename).2 = Except.ok pg)
    (ht : rj.job.temp = true) {fid : FileId} (hc : rj.job.changedFileId = some fid) :
    (jobFinish c s rj).temporaryWorkspace =
      ainsert s.temporaryWorkspace fid (some rj.job.workspace) := by
  obtain ⟨⟨jw, jopts, jcf, jtemp, jfn⟩, jold⟩ := rj
  simp only at ht hc
  subst ht hc
  unfold jobFinish
  simp [h]

theorem jobFinish_tw_err (c : Caps) (s : ServerState) (rj : RunningJob) {e : Unit}
    (h : (c.compiler rj.job.opts rj.job.filename).2 = Except.error e)
    (ht : rj.job.temp = true) {fid : FileId} (hc : rj.job.changedFileId = some fid) :
    (jobFinish c s rj).temporaryWorkspace = aremove s.temporaryWorkspace fid := by
  obtain ⟨⟨jw, jopts, jcf, jtemp, jfn⟩, jold⟩ := rj
  simp only at ht hc
  subst ht hc
  unfold jobFinish
  simp [h]

theorem jobStart_workspaces_eq (s : ServerState) (job : CompileJob) (w : WorkSpaceKind) :
    alookup (jobStart s job).workspaces w =
      if w = job.workspace then
        some (match alookup s.workspaces job.workspace with
          | some (DBState.Ready db) => DBState.Compiling db
          | some (DBState.Compiling db) => DBState.Compiling db
          | some DBState.Init => DBState.Init
          | none => DBState.Init)
      else alookup s.workspaces w := by
  by_cases hw : w = job.workspace
  · subst hw
    simp [jobStart, jobStartDB, alookup_ainsert_self]
  · simp [jobStart, jobStartDB, hw, alookup_ainsert_ne _ _ _ _ hw]

/-! ### Concrete fixtures used by witnesses and counterexamples -/

/-- A capability record whose compiler succeeds. -/
def capsOk : Caps where
  urlFromPath := fun p => some ("file://".append p)
  lookupWorkspaces := fun p => [("wsA", ⟨[p], 0⟩)]
  compiler := fun opts _f => ([3, 4], Except.ok (opts.files, 7))
  toLsp := fun d => [("a.k", [d])]

/-- A capability record whose compiler fails. -/
def capsErr : Caps where
  urlFromPath := fun p => some ("file://".append p)
  lookupWorkspaces := fun p => [("wsA", ⟨[p], 0⟩)]
  compiler := fun _opts _f => ([3], Except.error ())
  toLsp := fun d => [("a.k", [d])]

/-- A capability record whose URL conversion always fails. -/
def capsNoUrl : Caps where
  urlFromPath := fun _ => none
  lookupWorkspaces := fun p => [("wsA", ⟨[p], 0⟩)]
  compiler := fun opts _f => ([3, 4], Except.ok (opts.files, 7))
  toLsp := fun d => [("a.k", [d])]

/-- A temporary compile job for file 1 of workspace `wsA`. -/
def jobA : CompileJob := ⟨"wsA", ⟨["a.k"], 0⟩, some 1, true, "a.k"⟩

/-- The job `jobA` running, with one old diagnostic. -/
def rjA : RunningJob := ⟨jobA, [9]⟩

/-- A server state in which `jobA` is running against an `Init` registry
entry and file 1 still has its unresolved placeholder. -/
def stA : ServerState where
  vfs := [(1, "a.k")]
  workspaces := [("wsA", DBState.Init)]
  openedFiles := [(1, ⟨[]⟩)]
  temporaryWorkspace := [(1, none)]
  workspaceConfigCache := [("wsA", ⟨["a.k"], 0⟩)]
  tasks := []
  jobs := []
  running := [rjA]
  sent := []

/-! ### C1 -/

/-- C1: when a compile job finishes and the compiler returned
`Ok((prog, gs))`, the job installs `Ready(AnalysisDatabase{prog, gs, diags})`
for its workspace and, when started with `temp` and a changed file id, sets
that file's temporary workspace to the job's workspace; when the compiler
returned `Err`, the job removes the workspace from the registry and, when
temporary, removes the file's placeholder entry. -/
theorem compile_job_install_spec (c : Caps) (s : ServerState) (rj : RunningJob) :
    (∀ pg, (c.compiler rj.job.opts rj.job.filename).2 = Except.ok pg →
      alookup (jobFinish c s rj).workspaces rj.job.workspace =
        some (DBState.Ready ⟨pg.1, pg.2, (c.compiler rj.job.opts rj.job.filename).1⟩)
      ∧ (rj.job.temp = true → ∀ fid, rj.job.changedFileId = some fid →
          alookup (jobFinish c s rj).temporaryWorkspace fid = some (some rj.job.workspace)))
    ∧ (∀ e, (c.compiler rj.job.opts rj.job.filename).2 = Except.error e →
      alookup (jobFinish c s rj).workspaces rj.job.workspace = none
      ∧ (rj.job.temp = true → ∀ fid, rj.job.changedFileId = some fid →
          alookup (jobFinish c s rj).temporaryWorkspace fid = none)) := by
  constructor
  · intro pg h
    constructor
    · rw [jobFinish_workspaces_eq]
      rw [h]
      exact alookup_ainsert_self _ _ _
    · intro ht fid hc
      rw [jobFinish_tw_ok c s rj h ht hc]
      exact alookup_ainsert_self _ _ _
  · intro e h
    constructor
    · rw [jobFinish_workspaces_eq]
      rw [h]
      exact alookup_aremove_self _ _
    · intro ht fid hc
      rw [jobFinish_tw_err c s rj h ht hc]
      exact alookup_aremove_self _ _

/-- Witness for C1 at a concrete state, on both the success and the failure
side. -/
theorem compile_job_install_spec_witness :
    alookup (jobFinish capsOk stA rjA).workspaces "wsA"
        = some (DBState.Ready ⟨["a.k"], 7, [3, 4]⟩)
      ∧ alookup (jobFinish capsOk stA rjA).temporaryWorkspace 1 = some (some "wsA")
      ∧ alookup (jobFinish capsErr stA rjA).workspaces "wsA" = none
      ∧ alookup (jobFinish capsErr stA rjA).temporaryWorkspace 1 = none := by
  have hok := (compile_job_install_spec capsOk stA rjA).1 (["a.k"], 7) rfl
  have herr := (compile_job_install_spec capsErr stA rjA).2 () rfl
  exact ⟨hok.1, hok.2 rfl 1 rfl, herr.1, herr.2 rfl 1 rfl⟩

/-! ### Effect of scheduling loops on the state -/

theorem foldl_asyncCompile_spec (fid : FileId) (l : List (WorkSpaceKind × CompileUnitOptions))
    (s : ServerState) :
    (l.foldl (fun st wo => asyncCompile st wo.1 wo.2 (some fid) true) s).vfs = s.vfs
    ∧ (l.foldl (fun st wo => asyncCompile st wo.1 wo.2 (some fid) true) s).workspaces
        = s.workspaces
    ∧ (l.foldl (fun st wo => asyncCompile st wo.1 wo.2 (some fid) true) s).openedFiles
        = s.openedFiles
    ∧ (l.foldl (fun st wo => asyncCompile st wo.1 wo.2 (some fid) true) s).temporaryWorkspace
        = s.temporaryWorkspace
    ∧ (l.foldl (fun st wo => asyncCompile st wo.1 wo.2 (some fid) true) s).tasks = s.tasks
    ∧ (l.foldl (fun st wo => asyncCompile st wo.1 wo.2 (some fid) true) s).running = s.running
    ∧ (l.foldl (fun st wo => asyncCompile st wo.1 wo.2 (some fid) true) s).sent = s.sent
    ∧ (l.foldl (fun st wo => asyncCompile st wo.1 wo.2 (some fid) true) s).jobs
        = s.jobs ++ l.map (fun wo => (⟨wo.1, wo.2, some fid, true, fileNameOf s (some fid)⟩ :
            CompileJob)) := by
  induction l generalizing s with
  | nil => simp
  | cons a l ih =>
    obtain ⟨h1, h2, h3, h4, h5, h6, h7, h8⟩ := ih (asyncCompile s a.1 a.2 (some fid) true)
    refine ⟨h1, h2, h3, h4, h5, h6, h7, ?_⟩
    rw [List.foldl_cons, h8]
    simp [asyncCompile, fileNameOf]

theorem modifyCompiles_spec (fid : FileId) (l : List WorkSpaceKind) (s : ServerState)
    (h : ∀ w ∈ l, (alookup s.workspaceConfigCache w).isSome) :
    ∃ s2, modifyCompiles fid l s = some s2
      ∧ s2.vfs = s.vfs ∧ s2.workspaces = s.workspaces ∧ s2.openedFiles = s.openedFiles
      ∧ s2.temporaryWorkspace = s.temporaryWorkspace ∧ s2.tasks = s.tasks
      ∧ s2.running = s.running ∧ s2.sent = s.sent
      ∧ (∀ k, alookup s2.workspaceConfigCache k = alookup s.workspaceConfigCache k)
      ∧ s2.jobs = s.jobs ++ l.map (fun w =>
          (⟨w, (alookup s.workspaceConfigCache w).getD ⟨[], 0⟩, some fid, false,
            fileNameOf s (some fid)⟩ : CompileJob)) := by
  induction l generalizing s with
  | nil => exact ⟨s, rfl, rfl, rfl, rfl, rfl, rfl, rfl, rfl, fun _ => rfl, by simp⟩
  | cons w l ih =>
    have hw := h w (List.mem_cons_self w l)
    obtain ⟨opts, hopts⟩ := Option.isSome_iff_exists.mp hw
    have hcachepres : ∀ k,
        alookup (asyncCompile s w opts (some fid) false).workspaceConfigCache k
          = alookup s.workspaceConfigCache k := by
      intro k
      exact alookup_ainsert_same _ _ _ hopts k
    have hrest : ∀ w2 ∈ l,
        (alookup (asyncCompile s w opts (some fid) false).workspaceConfigCache w2).isSome := by
      intro w2 hw2
      rw [hcachepres w2]
      exact h w2 (List.mem_cons_of_mem _ hw2)
    obtain ⟨s2, hs2, e1, e2, e3, e4, e5, e6, e7, e8, e9⟩ :=
      ih (asyncCompile s w opts (some fid) false) hrest
    refine ⟨s2, ?_, e1, e2, e3, e4, e5, e6, e7, ?_, ?_⟩
    · simpa [modifyCompiles, hopts] using hs2
    · intro k
      rw [e8 k, hcachepres k]
    · rw [e9]
      simp only [asyncCompile, fileNameOf]
      simp [hopts, List.append_assoc]
      intro a _
      rw [alookup_ainsert_same s.workspaceConfigCache w opts hopts a]

theorem processCreate_workspaces (c : Caps) (fid : FileId) (s s2 : ServerState)
    (h : processCreate c fid s = some s2) : s2.workspaces = s.workspaces := by
  unfold processCreate at h
  split at h
  · cases h; rfl
  · split at h
    · cases h
    · split at h
      · cases h
      · split at h
        · cases h; rfl
        · dsimp only at h
          split at h <;> cases h <;> simpa using (foldl_asyncCompile_spec fid _ _).2.1

theorem modifyCompiles_none (fid : FileId) (l : List WorkSpaceKind) :
    ∀ (s : ServerState) (w : WorkSpaceKind), w ∈ l →
      alookup s.workspaceConfigCache w = none → modifyCompiles fid l s = none := by
  induction l with
  | nil => intro s w hw hn; simp at hw
  | cons a l ih =>
    intro s w hw hn
    cases hlk : alookup s.workspaceConfigCache a with
    | none => simp [modifyCompiles, hlk]
    | some o =>
      rcases List.mem_cons.mp hw with rfl | hmem
      · rw [hlk] at hn; cases hn
      · have hn2 : alookup (asyncCompile s a o (some fid) false).workspaceConfigCache w
            = none := by
          have hpres := alookup_ainsert_same s.workspaceConfigCache a o hlk w
          simpa [asyncCompile] using hpres.trans hn
        simp only [modifyCompiles, hlk]
        exact ih _ w hmem hn2

theorem modifyCompiles_some_workspaces (fid : FileId) (l : List WorkSpaceKind) :
    ∀ s s2 : ServerState, modifyCompiles fid l s = some s2 → s2.workspaces = s.workspaces := by
  induction l with
  | nil => intro s s2 h; cases h; rfl
  | cons a l ih =>
    intro s s2 h
    unfold modifyCompiles at h
    split at h
    · cases h
    · exact (ih _ _ h).trans rfl

theorem processModify_workspaces (c : Caps) (fid : FileId) (s s2 : ServerState)
    (h : processModify c fid s = some s2) : s2.workspaces = s.workspaces := by
  unfold processModify at h
  split at h
  · cases h; rfl
  · split at h
    · cases h
    · split at h
      · split at h
        · split at h
          · cases h
          · cases h; rfl
        · cases h; rfl
        · cases h; rfl
      · exact modifyCompiles_some_workspaces fid _ s s2 h

/-! ### Lemmas about the Delete branch -/

theorem processDelete_tw_self (fid : FileId) (s : ServerState) :
    alookup (processDelete fid s).temporaryWorkspace fid = none := by
  unfold processDelete
  cases htw : alookup s.temporaryWorkspace fid with
  | none => simpa using htw
  | some entry => cases entry <;> simp [alookup_aremove_self]

theorem processDelete_workspaces_eq (fid : FileId) (s : ServerState) (w : WorkSpaceKind) :
    alookup (processDelete fid s).workspaces w =
      if alookup s.temporaryWorkspace fid = some (some w) then none
      else alookup s.workspaces w := by
  unfold processDelete
  cases htw : alookup s.temporaryWorkspace fid with
  | none => simp [htw]
  | some entry =>
    cases entry with
    | none => simp [htw]
    | some w0 =>
      by_cases hw : w = w0
      · subst hw
        simp [htw, alookup_aremove_self]
      · simp [htw, Ne.symm hw, alookup_aremove_ne _ _ _ hw]

/-! ### C2 -/

/-- The transition relation on a registry entry asserted by C2: no change,
`Ready(db) → Compiling(db)` at job start, `Compiling → Ready` on success,
or `Compiling → removed` on compile error. -/
def dbTransitionClaimed (before after : Option DBState) : Prop :=
  after = before
  ∨ (∃ db, before = some (DBState.Ready db) ∧ after = some (DBState.Compiling db))
  ∨ (∃ db db2, before = some (DBState.Compiling db) ∧ after = some (DBState.Ready db2))
  ∨ (∃ db, before = some (DBState.Compiling db) ∧ after = none)

/-- Counterexample to C2: a compile job finishing for a workspace whose
registry entry is `Init` (as the start transition leaves it) performs the
transition `Init → Ready`, which is outside the claimed transition set. -/
theorem dbstate_transition_claim_cex :
    ¬ dbTransitionClaimed (alookup stA.workspaces "wsA")
      (alookup (jobFinish capsOk stA rjA).workspaces "wsA") := by
  have hb : alookup stA.workspaces "wsA" = some DBState.Init := by decide
  have ha : alookup (jobFinish capsOk stA rjA).workspaces "wsA"
      = some (DBState.Ready ⟨["a.k"], 7, [3, 4]⟩) := by decide
  rw [hb, ha]
  intro hcl
  rcases hcl with h | ⟨db, h1, h2⟩ | ⟨db, db2, h1, h2⟩ | ⟨db, h1, h2⟩ <;> simp_all

/-- C2 as amended: at job start the entry becomes `Compiling(db)` from
`Ready(db)`, stays `Compiling(db)` or `Init`, and a missing entry is
inserted as `Init`; all other entries are unchanged. At job completion the
entry — whatever its current state — is replaced by `Ready(new db)` on
success and removed on error, other entries unchanged. Create and Modify
processing never change the registry, and a Delete change removes exactly
the workspace designated by the file's resolved temporary entry. -/
theorem dbstate_transition_amended_spec (c : Caps) (s : ServerState) :
    (∀ job w, alookup (jobStart s job).workspaces w =
      if w = job.workspace then
        some (match alookup s.workspaces job.workspace with
          | some (DBState.Ready db) => DBState.Compiling db
          | some (DBState.Compiling db) => DBState.Compiling db
          | some DBState.Init => DBState.Init
          | none => DBState.Init)
      else alookup s.workspaces w)
    ∧ (∀ rj w pg, (c.compiler rj.job.opts rj.job.filename).2 = Except.ok pg →
        alookup (jobFinish c s rj).workspaces w =
          if w = rj.job.workspace then
            some (DBState.Ready ⟨pg.1, pg.2, (c.compiler rj.job.opts rj.job.filename).1⟩)
          else alookup s.workspaces w)
    ∧ (∀ rj w e, (c.compiler rj.job.opts rj.job.filename).2 = Except.error e →
        alookup (jobFinish c s rj).workspaces w =
          if w = rj.job.workspace then none else alookup s.workspaces w)
    ∧ (∀ fid s2, processCreate c fid s = some s2 → s2.workspaces = s.workspaces)
    ∧ (∀ fid s2, processModify c fid s = some s2 → s2.workspaces = s.workspaces)
    ∧ (∀ fid w, alookup (processDelete fid s).workspaces w =
        if alookup s.temporaryWorkspace fid = some (some w) then none
        else alookup s.workspaces w) := by
  refine ⟨fun job w => jobStart_workspaces_eq s job w, ?_, ?_,
    fun fid s2 h => processCreate_workspaces c fid s s2 h,
    fun fid s2 h => processModify_workspaces c fid s s2 h,
    fun fid w => processDelete_workspaces_eq fid s w⟩
  · intro rj w pg h
    rw [jobFinish_workspaces_eq, h]
    by_cases hw : w = rj.job.workspace
    · subst hw; simp [alookup_ainsert_self]
    · simp [hw, alookup_ainsert_ne _ _ _ _ hw]
  · intro rj w e h
    rw [jobFinish_workspaces_eq, h]
    by_cases hw : w = rj.job.workspace
    · subst hw; simp [alookup_aremove_self]
    · simp [hw, alookup_aremove_ne _ _ _ hw]

/-- A `Ready` registry state used to exercise the start transition. -/
def dbB : AnalysisDatabase := ⟨["a.k"], 5, [9]⟩

/-- A state with a `Ready` entry for `wsA` and `jobA` pending. -/
def stB : ServerState where
  vfs := [(1, "a.k")]
  workspaces := [("wsA", DBState.Ready dbB)]
  openedFiles := [(1, ⟨[]⟩)]
  temporaryWorkspace := [(1, some "wsA")]
  workspaceConfigCache := [("wsA", ⟨["a.k"], 0⟩)]
  tasks := []
  jobs := [jobA]
  running := []
  sent := []

/-- Witness for the amended C2: a concrete `Ready → Compiling` start
transition, a concrete success installation, and a concrete Delete removal. -/
theorem dbstate_transition_amended_spec_witness :
    alookup (jobStart stB jobA).workspaces "wsA" = some (DBState.Compiling dbB)
      ∧ alookup (jobFinish capsOk stA rjA).workspaces "wsA"
          = some (DBState.Ready ⟨["a.k"], 7, [3, 4]⟩)
      ∧ alookup (processDelete 1 stB).workspaces "wsA" = none := by
  refine ⟨((dbstate_transition_amended_spec capsOk stB).1 jobA "wsA").trans (by decide),
    (((dbstate_transition_amended_spec capsOk stA).2.1 rjA "wsA" (["a.k"], 7) rfl)).trans
      (by decide),
    ((dbstate_transition_amended_spec capsOk stB).2.2.2.2.2 1 "wsA").trans (by decide)⟩

/-! ### C7 -/

/-- C7: a Delete change for a file whose temporary-workspace entry is
resolved to `Some(w)` removes both that entry and workspace `w` from the
registry; every other workspace's registry entry is unchanged, and when the
entry is absent or unresolved the registry is untouched. -/
theorem process_delete_spec (s : ServerState) (fid : FileId) :
    (∀ w, alookup s.temporaryWorkspace fid = some (some w) →
      alookup (processDelete fid s).temporaryWorkspace fid = none
      ∧ alookup (processDelete fid s).workspaces w = none
      ∧ (∀ w2, w2 ≠ w → alookup (processDelete fid s).workspaces w2
          = alookup s.workspaces w2))
    ∧ ((alookup s.temporaryWorkspace fid = some none
        ∨ alookup s.temporaryWorkspace fid = none) →
      (processDelete fid s).workspaces = s.workspaces) := by
  constructor
  · intro w hw
    refine ⟨processDelete_tw_self fid s, ?_, ?_⟩
    · rw [processDelete_workspaces_eq, hw]
      simp
    · intro w2 hw2
      rw [processDelete_workspaces_eq, hw]
      simp [Ne.symm hw2]
  · intro hcase
    unfold processDelete
    rcases hcase with h | h <;> rw [h]

/-- Witness for C7 on a concrete state with a resolved temporary entry and
on one without. -/
theorem process_delete_spec_witness :
    alookup (processDelete 1 stB).temporaryWorkspace 1 = none
      ∧ alookup (processDelete 1 stB).workspaces "wsA" = none
      ∧ alookup (processDelete 1 stB).workspaces "wsB" = alookup stB.workspaces "wsB"
      ∧ (processDelete 1 stA).workspaces = stA.workspaces := by
  have h := (process_delete_spec stB 1).1 "wsA" (by decide)
  exact ⟨h.1, h.2.1, h.2.2 "wsB" (by decide),
    (process_delete_spec stA 1).2 (Or.inl (by decide))⟩

/-! ### Lemmas about diagnostics maps and publication -/

theorem nodupKeys_extendEntry {m : List (Path × List Diag)} (h : NodupKeys m) (k : Path)
    (v : List Diag) : NodupKeys (extendEntry m k v) := by
  unfold extendEntry
  cases alookup m k <;> exact nodupKeys_ainsert h k _

theorem nodupKeys_foldl_extend (l : List (Path × List Diag)) :
    ∀ m : List (Path × List Diag), NodupKeys m →
      NodupKeys (l.foldl (fun m kv => extendEntry m kv.1 kv.2) m) := by
  induction l with
  | nil => intro m h; exact h
  | cons a l ih =>
    intro m h
    exact ih _ (nodupKeys_extendEntry h a.1 a.2)

theorem nodupKeys_buildDiagsMap_aux (toLsp : Diag → List (Path × List Diag))
    (diags : List Diag) :
    ∀ m : List (Path × List Diag), NodupKeys m →
      NodupKeys (diags.foldl
        (fun m d => (toLsp d).foldl (fun m kv => extendEntry m kv.1 kv.2) m) m) := by
  induction diags with
  | nil => intro m h; exact h
  | cons d diags ih =>
    intro m h
    exact ih _ (nodupKeys_foldl_extend (toLsp d) m h)

theorem nodupKeys_buildDiagsMap (toLsp : Diag → List (Path × List Diag))
    (diags : List Diag) : NodupKeys (buildDiagsMap toLsp diags) :=
  nodupKeys_buildDiagsMap_aux toLsp diags [] (List.nodup_nil)

theorem mem_publishList_of_old (u : Path → Option Url)
    {oldM newM : List (Path × List Diag)} {f : Path} {d : List Diag} {uri : Url}
    (hmem : (f, d) ∈ oldM) (hnew : alookup newM f = none) (huri : u f = some uri) :
    (uri, ([] : List Diag)) ∈ publishList u oldM newM := by
  unfold publishList
  refine List.mem_append_left _ (List.mem_filterMap.mpr ⟨(f, d), hmem, ?_⟩)
  simp [hnew, huri]

theorem mem_publishList_of_new (u : Path → Option Url)
    {oldM newM : List (Path × List Diag)} {f : Path} {ds : List Diag} {uri : Url}
    (hmem : (f, ds) ∈ newM) (huri : u f = some uri) :
    (uri, ds) ∈ publishList u oldM newM := by
  unfold publishList
  refine List.mem_append_right _ (List.mem_filterMap.mpr ⟨(f, ds), hmem, ?_⟩)
  simp [huri]

theorem publishList_elim (u : Path → Option Url)
    {oldM newM : List (Path × List Diag)} {uri : Url} {ds : List Diag}
    (h : (uri, ds) ∈ publishList u oldM newM) :
    ∃ f, u f = some uri ∧
      (((alookup oldM f).isSome ∧ alookup newM f = none ∧ ds = [])
        ∨ (f, ds) ∈ newM) := by
  unfold publishList at h
  rcases List.mem_append.mp h with h1 | h1
  · obtain ⟨fd, hmem, heq⟩ := List.mem_filterMap.mp h1
    by_cases hnew : (alookup newM fd.1).isSome
    · simp [hnew] at heq
    · rw [if_neg hnew] at heq
      obtain ⟨uri2, huri, heq2⟩ := Option.map_eq_some'.mp heq
      obtain ⟨rfl, rfl⟩ := Prod.mk.injEq .. ▸ heq2
      exact ⟨fd.1, huri, Or.inl ⟨alookup_isSome_of_mem (by simpa using hmem),
        Option.not_isSome_iff_eq_none.mp hnew, rfl⟩⟩
  · obtain ⟨fd, hmem, heq⟩ := List.mem_filterMap.mp h1
    obtain ⟨uri2, huri, heq2⟩ := Option.map_eq_some'.mp heq
    obtain ⟨rfl, rfl⟩ := Prod.mk.injEq .. ▸ heq2
    exact ⟨fd.1, huri, Or.inr (by simpa using hmem)⟩

/-! ### C3 -/

/-- C3: a finishing compile job appends to the sent notifications exactly
the publications of the old/new diagnostics diff; over the per-file maps
built from any old and new diagnostic sets, that diff publishes an empty
list for each file URL present in the old map but absent from the new map,
the new list for each file URL of the new map, and nothing for any file in
neither map. -/
theorem diagnostics_diff_publish_spec (c : Caps) (s : ServerState) (rj : RunningJob) :
    (jobFinish c s rj).sent = s.sent ++ publishList c.urlFromPath
        (buildDiagsMap c.toLsp rj.oldDiags)
        (buildDiagsMap c.toLsp (c.compiler rj.job.opts rj.job.filename).1)
    ∧ (∀ (u : Path → Option Url) (oldM newM : List (Path × List Diag)), NodupKeys newM →
        (∀ f d uri, alookup oldM f = some d → alookup newM f = none → u f = some uri →
          (uri, ([] : List Diag)) ∈ publishList u oldM newM)
        ∧ (∀ f ds uri, alookup newM f = some ds → u f = some uri →
          (uri, ds) ∈ publishList u oldM newM)
        ∧ (∀ uri ds, (uri, ds) ∈ publishList u oldM newM →
          ∃ f, u f = some uri ∧
            (((alookup oldM f).isSome ∧ alookup newM f = none ∧ ds = [])
              ∨ alookup newM f = some ds)))
    ∧ (∀ diags, NodupKeys (buildDiagsMap c.toLsp diags)) := by
  refine ⟨jobFinish_sent_eq c s rj, ?_, nodupKeys_buildDiagsMap c.toLsp⟩
  intro u oldM newM hn
  refine ⟨?_, ?_, ?_⟩
  · intro f d uri hold hnew huri
    exact mem_publishList_of_old u (mem_of_alookup_eq_some hold) hnew huri
  · intro f ds uri hnew huri
    exact mem_publishList_of_new u (mem_of_alookup_eq_some hnew) huri
  · intro uri ds h
    obtain ⟨f, huri, hcase⟩ := publishList_elim u h
    refine ⟨f, huri, ?_⟩
    rcases hcase with h1 | h1
    · exact Or.inl h1
    · exact Or.inr (alookup_eq_some_of_mem_nodup hn h1)

/-- Witness for C3: on concrete maps, the diff publishes a cancellation for
the stale file and the new list for the current file. -/
theorem diagnostics_diff_publish_spec_witness :
    ("u:b.k", ([] : List Diag)) ∈ publishList (fun p => some ("u:".append p))
        [("a.k", [1]), ("b.k", [2])] [("a.k", [5])]
      ∧ ("u:a.k", [5]) ∈ publishList (fun p => some ("u:".append p))
        [("a.k", [1]), ("b.k", [2])] [("a.k", [5])] := by
  have h := (diagnostics_diff_publish_spec capsOk stA rjA).2.1
    (fun p => some ("u:".append p)) [("a.k", [1]), ("b.k", [2])] [("a.k", [5])]
    (by unfold NodupKeys; decide)
  exact ⟨h.1 "b.k" [2] "u:b.k" (by decide) (by decide) rfl,
    h.2.1 "a.k" [5] "u:a.k" (by decide) rfl⟩

/-! ### Lemmas about the Create scan -/

/-- The workspaces whose `Ready` database's program contains the path. -/
def readyOwners (p : Path) (ws : List (WorkSpaceKind × DBState)) : List WorkSpaceKind :=
  ws.filterMap fun e => match e.2 with
    | DBState.Ready db => if p ∈ db.prog then some e.1 else none
    | DBState.Compiling _ => none
    | DBState.Init => none

/-- The number of registry entries in state `Compiling` or `Init`. -/
def pendingCount (ws : List (WorkSpaceKind × DBState)) : Nat :=
  (ws.filter fun e => match e.2 with
    | DBState.Compiling _ => true
    | DBState.Init => true
    | DBState.Ready _ => false).length

theorem createScan_spec (p : Path) (fid : FileId) :
    ∀ (ws : List (WorkSpaceKind × DBState)) (opened : List (FileId × OpenFileInfo))
      (tasks : List Task) (b : Bool) (info : OpenFileInfo),
      alookup opened fid = some info →
      ∃ opened2,
        createScan p fid ws opened tasks b
          = some (opened2,
              tasks ++ List.replicate (pendingCount ws)
                (Task.ChangedFile fid ChangeKind.Create),
              b || !(readyOwners p ws).isEmpty)
        ∧ alookup opened2 fid
            = some ⟨List.foldl insertIdem info.workspaces (readyOwners p ws)⟩
        ∧ (∀ f, f ≠ fid → alookup opened2 f = alookup opened f) := by
  intro ws
  induction ws with
  | nil =>
    intro opened tasks b info hi
    refine ⟨opened, ?_, ?_, fun f _ => rfl⟩
    · simp [createScan, readyOwners, pendingCount]
    · simpa [readyOwners] using hi
  | cons e ws ih =>
    obtain ⟨w, st⟩ := e
    intro opened tasks b info hi
    cases st with
    | Ready db =>
      by_cases hin : p ∈ db.prog
      · have hro : readyOwners p ((w, DBState.Ready db) :: ws) = w :: readyOwners p ws := by
          simp [readyOwners, hin]
        have hpc : pendingCount ((w, DBState.Ready db) :: ws) = pendingCount ws := by
          simp [pendingCount]
        have hstep : createScan p fid ((w, DBState.Ready db) :: ws) opened tasks b
            = createScan p fid ws (ainsert opened fid ⟨insertIdem info.workspaces w⟩)
                tasks true := by
          simp [createScan, hin, hi]
        obtain ⟨opened2, h1, h2, h3⟩ :=
          ih (ainsert opened fid ⟨insertIdem info.workspaces w⟩) tasks true
            ⟨insertIdem info.workspaces w⟩ (alookup_ainsert_self _ _ _)
        refine ⟨opened2, ?_, ?_, ?_⟩
        · rw [hstep, h1, hro, hpc]
          simp
        · rw [h2, hro]
          rfl
        · exact fun f hf => (h3 f hf).trans (alookup_ainsert_ne _ _ _ _ hf)
      · have hro : readyOwners p ((w, DBState.Ready db) :: ws) = readyOwners p ws := by
          simp [readyOwners, hin]
        have hpc : pendingCount ((w, DBState.Ready db) :: ws) = pendingCount ws := by
          simp [pendingCount]
        have hstep : createScan p fid ((w, DBState.Ready db) :: ws) opened tasks b
            = createScan p fid ws opened tasks b := by
          simp [createScan, hin]
        obtain ⟨opened2, h1, h2, h3⟩ := ih opened tasks b info hi
        exact ⟨opened2, by rw [hstep, h1, hro, hpc], by rw [h2, hro], h3⟩
    | Compiling db =>
      have hro : readyOwners p ((w, DBState.Compiling db) :: ws) = readyOwners p ws := by
        simp [readyOwners]
      have hpc : pendingCount ((w, DBState.Compiling db) :: ws) = pendingCount ws + 1 := by
        simp [pendingCount]
      have hstep : createScan p fid ((w, DBState.Compiling db) :: ws) opened tasks b
          = createScan p fid ws opened
              (tasks ++ [Task.ChangedFile fid ChangeKind.Create]) b := by
        simp [createScan]
      obtain ⟨opened2, h1, h2, h3⟩ :=
        ih opened (tasks ++ [Task.ChangedFile fid ChangeKind.Create]) b info hi
      refine ⟨opened2, ?_, by rw [h2, hro], h3⟩
      rw [hstep, h1, hro, hpc]
      simp [List.replicate_succ]
    | Init =>
      have hro : readyOwners p ((w, DBState.Init) :: ws) = readyOwners p ws := by
        simp [readyOwners]
      have hpc : pendingCount ((w, DBState.Init) :: ws) = pendingCount ws + 1 := by
        simp [pendingCount]
      have hstep : createScan p fid ((w, DBState.Init) :: ws) opened tasks b
          = createScan p fid ws opened
              (tasks ++ [Task.ChangedFile fid ChangeKind.Create]) b := by
        simp [createScan]
      obtain ⟨opened2, h1, h2, h3⟩ :=
        ih opened (tasks ++ [Task.ChangedFile fid ChangeKind.Create]) b info hi
      refine ⟨opened2, ?_, by rw [h2, hro], h3⟩
      rw [hstep, h1, hro, hpc]
      simp [List.replicate_succ]

/-! ### C4 -/

/-- C4: for a Create change whose `FileId` resolves to a path (and whose
URL conversion and `opened_files` entry exist, so the code does not panic),
`process_changed_file` records every `Ready` workspace containing the path
into the opened file's workspace set, posts one `ChangedFile(fid, Create)`
retry per `Compiling` or `Init` registry entry, ends with no
temporary-workspace entry for the file, and — exactly when no `Ready`
workspace contains the path — schedules one temporary compile per workspace
returned by discovery. -/
theorem process_create_spec (c : Caps) (s : ServerState) (fid : FileId) (p : Path) (u : Url)
    (info : OpenFileInfo) (hp : alookup s.vfs fid = some p) (hu : c.urlFromPath p = some u)
    (hi : alookup s.openedFiles fid = some info) :
    ∃ s2, processCreate c fid s = some s2
      ∧ alookup s2.openedFiles fid
          = some ⟨List.foldl insertIdem info.workspaces (readyOwners p s.workspaces)⟩
      ∧ (∀ f, f ≠ fid → alookup s2.openedFiles f = alookup s.openedFiles f)
      ∧ s2.tasks = s.tasks ++ List.replicate (pendingCount s.workspaces)
          (Task.ChangedFile fid ChangeKind.Create)
      ∧ alookup s2.temporaryWorkspace fid = none
      ∧ (∀ f, f ≠ fid → alookup s2.temporaryWorkspace f = alookup s.temporaryWorkspace f)
      ∧ (readyOwners p s.workspaces ≠ [] → s2.jobs = s.jobs)
      ∧ (readyOwners p s.workspaces = [] →
          s2.jobs = s.jobs ++ (c.lookupWorkspaces p).map
            (fun wo => (⟨wo.1, wo.2, some fid, true, p⟩ : CompileJob))) := by
  obtain ⟨opened2, hscan, hlook, hframe⟩ :=
    createScan_spec p fid s.workspaces s.openedFiles s.tasks false info hi
  by_cases hro : readyOwners p s.workspaces = []
  · have hflag : (false || !(readyOwners p s.workspaces).isEmpty) = false := by
      simp [hro]
    rw [hflag] at hscan
    rcases hpc : processCreate c fid s with _ | s2
    · exfalso
      simp only [processCreate, hp, hu, hscan, Bool.false_eq_true, if_false] at hpc
      split at hpc <;> exact Option.noConfusion hpc
    · simp only [processCreate, hp, hu, hscan, Bool.false_eq_true, if_false] at hpc
      split at hpc
      · cases hpc
        refine ⟨_, rfl, ?_, ?_, ?_, ?_, ?_, fun h => absurd hro h, fun _ => ?_⟩
        · dsimp only
          rw [(foldl_asyncCompile_spec fid _ _).2.2.1]
          exact hlook
        · intro f hf
          dsimp only
          rw [(foldl_asyncCompile_spec fid _ _).2.2.1]
          exact hframe f hf
        · dsimp only
          rw [(foldl_asyncCompile_spec fid _ _).2.2.2.2.1]
        · dsimp only
          exact alookup_aremove_self _ _
        · intro f hf
          dsimp only
          rw [alookup_aremove_ne _ _ _ hf, (foldl_asyncCompile_spec fid _ _).2.2.2.1,
            alookup_ainsert_ne _ _ _ _ hf]
        · dsimp only
          rw [(foldl_asyncCompile_spec fid _ _).2.2.2.2.2.2.2]
          simp [fileNameOf, hp]
      · exfalso
        rename_i hcond
        rw [(foldl_asyncCompile_spec fid _ _).2.2.2.1] at hcond
        simp [alookup_ainsert_self] at hcond
  · have hflag : (false || !(readyOwners p s.workspaces).isEmpty) = true := by
      simp [hro]
    rw [hflag] at hscan
    rcases hpc : processCreate c fid s with _ | s2
    · exfalso
      simp only [processCreate, hp, hu, hscan, if_true] at hpc
      exact Option.noConfusion hpc
    · simp only [processCreate, hp, hu, hscan, if_true] at hpc
      cases hpc
      refine ⟨_, rfl, hlook, hframe, rfl, ?_, ?_, fun _ => rfl, fun h => absurd h hro⟩
      · dsimp only
        exact alookup_aremove_self _ _
      · intro f hf
        dsimp only
        rw [alookup_aremove_ne _ _ _ hf, alookup_ainsert_ne _ _ _ _ hf]

/-- Witness for C4: a concrete Create over an `Init`-only registry posts one
retry task, schedules the discovered temporary compile, and clears the
placeholder. -/
theorem process_create_spec_witness :
    ∃ s2, processCreate capsOk 1 stA = some s2
      ∧ s2.tasks = [Task.ChangedFile 1 ChangeKind.Create]
      ∧ s2.jobs = [jobA]
      ∧ alookup s2.temporaryWorkspace 1 = none := by
  obtain ⟨s2, h0, h1, h2, h3, h4, h5, h6, h7⟩ :=
    process_create_spec capsOk stA 1 "a.k" "file://a.k" ⟨[]⟩ rfl rfl rfl
  refine ⟨s2, h0, h3.trans (by decide), (h7 (by decide)).trans ?_, h4⟩
  show stA.jobs ++ _ = _
  decide

/-! ### C5 -/

/-- C5: for a Modify change whose `FileId` resolves (and whose
`opened_files` entry exists): when the file's workspace set is non-empty
(and the config cache covers it, as the code's `unwrap` requires), one
non-temporary compile is scheduled per owning workspace; when it is empty
and the temporary workspace is resolved, one temporary compile is
scheduled; when the entry exists unresolved, a `ChangedFile(fid, Modify)`
retry is posted and nothing is scheduled; when it is absent, nothing
happens. -/
theorem process_modify_spec (c : Caps) (s : ServerState) (fid : FileId) (p : Path)
    (info : OpenFileInfo) (hp : alookup s.vfs fid = some p)
    (hi : alookup s.openedFiles fid = some info) :
    (info.workspaces ≠ [] →
      (∀ w ∈ info.workspaces, (alookup s.workspaceConfigCache w).isSome) →
      ∃ s2, processModify c fid s = some s2
        ∧ s2.jobs = s.jobs ++ info.workspaces.map (fun w =>
            (⟨w, (alookup s.workspaceConfigCache w).getD ⟨[], 0⟩, some fid, false, p⟩ :
              CompileJob))
        ∧ s2.tasks = s.tasks ∧ s2.temporaryWorkspace = s.temporaryWorkspace)
    ∧ (info.workspaces = [] → ∀ w opts,
        alookup s.temporaryWorkspace fid = some (some w) →
        alookup s.workspaceConfigCache w = some opts →
        processModify c fid s = some (asyncCompile s w opts (some fid) true)
        ∧ (asyncCompile s w opts (some fid) true).jobs
            = s.jobs ++ [(⟨w, opts, some fid, true, p⟩ : CompileJob)])
    ∧ (info.workspaces = [] → alookup s.temporaryWorkspace fid = some none →
        processModify c fid s
          = some { s with tasks := s.tasks ++ [Task.ChangedFile fid ChangeKind.Modify] })
    ∧ (info.workspaces = [] → alookup s.temporaryWorkspace fid = none →
        processModify c fid s = some s) := by
  refine ⟨?_, ?_, ?_, ?_⟩
  · intro hne hall
    have hL : info.workspaces.isEmpty = false := by
      cases hw : info.workspaces with
      | nil => exact absurd hw hne
      | cons a l => rfl
    obtain ⟨s2, hs2, e1, e2, e3, e4, e5, e6, e7, e8, e9⟩ :=
      modifyCompiles_spec fid info.workspaces s hall
    refine ⟨s2, ?_, ?_, e5, e4⟩
    · simp only [processModify, hp, hi, hL, Bool.false_eq_true, if_false]
      exact hs2
    · rw [e9]
      simp [fileNameOf, hp]
  · intro h0 w opts htw hcc
    have hL : info.workspaces.isEmpty = true := by rw [h0]; rfl
    constructor
    · simp only [processModify, hp, hi, hL, if_true, htw, hcc]
    · simp [asyncCompile, fileNameOf, hp]
  · intro h0 htw
    have hL : info.workspaces.isEmpty = true := by rw [h0]; rfl
    simp only [processModify, hp, hi, hL, if_true, htw]
  · intro h0 htw
    have hL : info.workspaces.isEmpty = true := by rw [h0]; rfl
    simp only [processModify, hp, hi, hL, if_true, htw]

/-- A compile job scheduled by C5's in-workspace branch. -/
def jobB : CompileJob := ⟨"wsB", ⟨["a.k"], 0⟩, some 1, false, "a.k"⟩

/-- A state whose open file 1 belongs to workspace `wsB`. -/
def stC : ServerState where
  vfs := [(1, "a.k")]
  workspaces := []
  openedFiles := [(1, ⟨["wsB"]⟩)]
  temporaryWorkspace := []
  workspaceConfigCache := [("wsB", ⟨["a.k"], 0⟩)]
  tasks := []
  jobs := []
  running := []
  sent := []

/-- Like `stC` but with the file in no workspace. -/
def stD : ServerState where
  vfs := [(1, "a.k")]
  workspaces := []
  openedFiles := [(1, ⟨[]⟩)]
  temporaryWorkspace := []
  workspaceConfigCache := []
  tasks := []
  jobs := []
  running := []
  sent := []

/-- Witness for C5: a concrete in-workspace Modify schedules one
non-temporary compile; with no workspace and no temporary entry, nothing is
scheduled. -/
theorem process_modify_spec_witness :
    (∃ s2, processModify capsOk 1 stC = some s2 ∧ s2.jobs = [jobB])
      ∧ processModify capsOk 1 stD = some stD := by
  constructor
  · obtain ⟨s2, heq, hjobs, -, -⟩ :=
      (process_modify_spec capsOk stC 1 "a.k" ⟨["wsB"]⟩ rfl rfl).1 (by decide)
        (by decide)
    exact ⟨s2, heq, hjobs.trans (by decide)⟩
  · exact (process_modify_spec capsOk stD 1 "a.k" ⟨[]⟩ rfl rfl).2.2.2 rfl rfl

/-! ### Preservation of the cache invariant -/

theorem isSome_alookup_ainsert_mono {α β : Type} [DecidableEq α] {m : List (α × β)} {k' : α}
    (h : (alookup m k').isSome) (k : α) (v : β) : (alookup (ainsert m k v) k').isSome := by
  by_cases hk : k' = k
  · subst hk; simp [alookup_ainsert_self]
  · rw [alookup_ainsert_ne _ _ _ _ hk]; exact h

theorem alookup_of_aremove_eq_some {α β : Type} [DecidableEq α] {m : List (α × β)}
    {k k' : α} {v : β} (h : alookup (aremove m k) k' = some v) : alookup m k' = some v := by
  by_cases hk : k' = k
  · subst hk; rw [alookup_aremove_self] at h; cases h
  · rwa [alookup_aremove_ne _ _ _ hk] at h

theorem cacheInv_of_eq {s1 s2 : ServerState} (hj : s2.jobs = s1.jobs)
    (hr : s2.running = s1.running)
    (hc : s2.workspaceConfigCache = s1.workspaceConfigCache)
    (hw : s2.workspaces = s1.workspaces) (h : CacheInv s1) : CacheInv s2 := by
  unfold CacheInv at *
  rw [hj, hr, hc, hw]
  exact h

theorem cacheInv_asyncCompile {s : ServerState} (h : CacheInv s) (w : WorkSpaceKind)
    (opts : CompileUnitOptions) (cfid : Option FileId) (temp : Bool) :
    CacheInv (asyncCompile s w opts cfid temp) := by
  obtain ⟨h1, h2, h3⟩ := h
  refine ⟨?_, ?_, ?_⟩
  · intro j hj
    rcases List.mem_append.mp hj with hj | hj
    · exact isSome_alookup_ainsert_mono (h1 j hj) w opts
    · simp at hj
      subst hj
      simp [asyncCompile, alookup_ainsert_self]
  · intro rj hrj
    exact isSome_alookup_ainsert_mono (h2 rj hrj) w opts
  · intro w2 db hw2
    exact isSome_alookup_ainsert_mono (h3 w2 db hw2) w opts

theorem cacheInv_foldl_asyncCompile (fid : FileId)
    (l : List (WorkSpaceKind × CompileUnitOptions)) :
    ∀ s : ServerState, CacheInv s →
      CacheInv (l.foldl (fun st wo => asyncCompile st wo.1 wo.2 (some fid) true) s) := by
  induction l with
  | nil => intro s h; exact h
  | cons a l ih =>
    intro s h
    exact ih _ (cacheInv_asyncCompile h a.1 a.2 (some fid) true)

theorem cacheInv_modifyCompiles (fid : FileId) (l : List WorkSpaceKind) :
    ∀ s s2 : ServerState, modifyCompiles fid l s = some s2 → CacheInv s → CacheInv s2 := by
  induction l with
  | nil => intro s s2 h hinv; cases h; exact hinv
  | cons a l ih =>
    intro s s2 h hinv
    unfold modifyCompiles at h
    split at h
    · cases h
    · rename_i opts hopts
      exact ih _ _ h (cacheInv_asyncCompile hinv a opts (some fid) false)

theorem cacheInv_processCreate (c : Caps) (fid : FileId) (s s2 : ServerState)
    (h : processCreate c fid s = some s2) (hinv : CacheInv s) : CacheInv s2 := by
  unfold processCreate at h
  split at h
  · cases h; exact hinv
  · split at h
    · cases h
    · split at h
      · cases h
      · split at h
        · cases h
          exact cacheInv_of_eq rfl rfl rfl rfl hinv
        · dsimp only at h
          split at h <;> cases h
          · exact cacheInv_of_eq rfl rfl rfl rfl
              (cacheInv_foldl_asyncCompile fid _ _ (cacheInv_of_eq rfl rfl rfl rfl hinv))
          · exact cacheInv_foldl_asyncCompile fid _ _ (cacheInv_of_eq rfl rfl rfl rfl hinv)

theorem cacheInv_processModify (c : Caps) (fid : FileId) (s s2 : ServerState)
    (h : processModify c fid s = some s2) (hinv : CacheInv s) : CacheInv s2 := by
  unfold processModify at h
  split at h
  · cases h; exact hinv
  · split at h
    · cases h
    · split at h
      · split at h
        · split at h
          · cases h
          · rename_i opts hopts
            cases h
            exact cacheInv_asyncCompile hinv _ opts (some fid) true
        · cases h
          exact cacheInv_of_eq rfl rfl rfl rfl hinv
        · cases h; exact hinv
      · exact cacheInv_modifyCompiles fid _ s s2 h hinv

theorem cacheInv_processDelete (fid : FileId) (s : ServerState) (hinv : CacheInv s) :
    CacheInv (processDelete fid s) := by
  obtain ⟨h1, h2, h3⟩ := hinv
  unfold processDelete
  split
  · split
    · refine ⟨h1, h2, ?_⟩
      intro w2 db hw2
      refine h3 w2 db ?_
      rcases hw2 with hw2 | hw2
      · exact Or.inl (alookup_of_aremove_eq_some hw2)
      · exact Or.inr (alookup_of_aremove_eq_some hw2)
    · exact ⟨h1, h2, h3⟩
  · exact ⟨h1, h2, h3⟩

theorem cacheInv_jobStart (s : ServerState) (job : CompileJob) (hj : job ∈ s.jobs)
    (hinv : CacheInv s) : CacheInv (jobStart s job) := by
  obtain ⟨h1, h2, h3⟩ := hinv
  refine ⟨?_, ?_, ?_⟩
  · intro j hjm
    exact h1 j (List.mem_of_mem_erase hjm)
  · intro rj hrj
    rcases List.mem_append.mp hrj with hrj | hrj
    · exact h2 rj hrj
    · simp at hrj
      subst hrj
      exact h1 job hj
  · intro w2 db hw2
    by_cases hw : w2 = job.workspace
    · subst hw
      exact h1 job hj
    · refine h3 w2 db ?_
      simp only [jobStart, jobStartDB] at hw2
      rw [alookup_ainsert_ne _ _ _ _ hw] at hw2
      exact hw2

theorem jobFinish_cache_eq (c : Caps) (s : ServerState) (rj : RunningJob) :
    (jobFinish c s rj).workspaceConfigCache = s.workspaceConfigCache := by
  obtain ⟨⟨jw, jopts, jcf, jtemp, jfn⟩, jold⟩ := rj
  unfold jobFinish
  cases h : (c.compiler jopts jfn).2 with
  | ok pg => cases jtemp <;> cases jcf <;> simp [h]
  | error e => cases jtemp <;> cases jcf <;> simp [h]

theorem jobFinish_jobs_eq (c : Caps) (s : ServerState) (rj : RunningJob) :
    (jobFinish c s rj).jobs = s.jobs := by
  obtain ⟨⟨jw, jopts, jcf, jtemp, jfn⟩, jold⟩ := rj
  unfold jobFinish
  cases h : (c.compiler jopts jfn).2 with
  | ok pg => cases jtemp <;> cases jcf <;> simp [h]
  | error e => cases jtemp <;> cases jcf <;> simp [h]

theorem jobFinish_running_eq (c : Caps) (s : ServerState) (rj : RunningJob) :
    (jobFinish c s rj).running = s.running.erase rj := by
  obtain ⟨⟨jw, jopts, jcf, jtemp, jfn⟩, jold⟩ := rj
  unfold jobFinish
  cases h : (c.compiler jopts jfn).2 with
  | ok pg => cases jtemp <;> cases jcf <;> simp [h]
  | error e => cases jtemp <;> cases jcf <;> simp [h]

theorem cacheInv_jobFinish (c : Caps) (s : ServerState) (rj : RunningJob)
    (hr : rj ∈ s.running) (hinv : CacheInv s) : CacheInv (jobFinish c s rj) := by
  obtain ⟨h1, h2, h3⟩ := hinv
  refine ⟨?_, ?_, ?_⟩
  · intro j hjm
    rw [jobFinish_cache_eq]
    exact h1 j (by rwa [jobFinish_jobs_eq] at hjm)
  · intro rj2 hrj2
    rw [jobFinish_cache_eq]
    rw [jobFinish_running_eq] at hrj2
    exact h2 rj2 (List.mem_of_mem_erase hrj2)
  · intro w2 db hw2
    rw [jobFinish_cache_eq]
    rw [jobFinish_workspaces_eq] at hw2
    by_cases hw : w2 = rj.job.workspace
    · subst hw
      exact h2 rj hr
    · refine h3 w2 db ?_
      rcases he : (c.compiler rj.job.opts rj.job.filename).2 with pg | e <;> rw [he] at hw2
      · rcases hw2 with hw2 | hw2
        · rw [alookup_aremove_ne _ _ _ hw] at hw2
          exact Or.inl hw2
        · rw [alookup_aremove_ne _ _ _ hw] at hw2
          exact Or.inr hw2
      · rcases hw2 with hw2 | hw2
        · rw [alookup_ainsert_ne _ _ _ _ hw] at hw2
          exact Or.inl hw2
        · rw [alookup_ainsert_ne _ _ _ _ hw] at hw2
          exact Or.inr hw2

theorem cacheInv_reachable (c : Caps) : ∀ s : ServerState, Reachable c s → CacheInv s := by
  intro s h
  induction h with
  | init vfs opened =>
    refine ⟨?_, ?_, ?_⟩
    · intro j hj; simp at hj
    · intro rj hrj; simp at hrj
    · intro w db hw
      rcases hw with hw | hw <;> simp [alookup] at hw
  | step op hs hstep ih =>
    cases op with
    | initCompile w opts =>
      cases hstep
      exact cacheInv_asyncCompile ih w opts none false
    | create fid => exact cacheInv_processCreate c fid _ _ hstep ih
    | modify fid => exact cacheInv_processModify c fid _ _ hstep ih
    | delete fid =>
      cases hstep
      exact cacheInv_processDelete fid _ ih
    | start job =>
      simp only [applyOp] at hstep
      split at hstep
      · cases hstep
        exact cacheInv_jobStart _ job (by assumption) ih
      · cases hstep
    | finish rj =>
      simp only [applyOp] at hstep
      split at hstep
      · cases hstep
        exact cacheInv_jobFinish c _ rj (by assumption) ih
      · cases hstep

/-! ### C6 -/

/-- C6: `async_compile` writes `workspace_config_cache[w] = opts` in the
same step that submits the compile job, and in every reachable state the
cache entry is present for every pending job's workspace and for every
workspace whose registry state is `Compiling` or `Ready`. -/
theorem config_cache_invariant_spec :
    (∀ (s : ServerState) (w : WorkSpaceKind) (opts : CompileUnitOptions)
        (cfid : Option FileId) (temp : Bool),
      alookup (asyncCompile s w opts cfid temp).workspaceConfigCache w = some opts
      ∧ (asyncCompile s w opts cfid temp).jobs
          = s.jobs ++ [⟨w, opts, cfid, temp, fileNameOf s cfid⟩])
    ∧ (∀ (c : Caps) (s : ServerState), Reachable c s →
        (∀ j ∈ s.jobs, (alookup s.workspaceConfigCache j.workspace).isSome)
        ∧ (∀ w db, alookup s.workspaces w = some (DBState.Compiling db)
            ∨ alookup s.workspaces w = some (DBState.Ready db) →
          (alookup s.workspaceConfigCache w).isSome)) := by
  constructor
  · intro s w opts cfid temp
    exact ⟨alookup_ainsert_self _ _ _, rfl⟩
  · intro c s h
    obtain ⟨h1, h2, h3⟩ := cacheInv_reachable c s h
    exact ⟨h1, h3⟩

/-- An initialization-time compile job for workspace `w1`. -/
def jobW : CompileJob := ⟨"w1", ⟨[], 0⟩, none, false, ""⟩

/-- The empty server state after `init_state`. -/
def stInit : ServerState := ⟨[], [], [], [], [], [], [], [], []⟩

/-- State `stInit` after `async_compile` for `w1`. -/
def stW1 : ServerState := asyncCompile stInit "w1" ⟨[], 0⟩ none false

/-- State `stW1` after the job starts. -/
def stW2 : ServerState := jobStart stW1 jobW

/-- The running instance of `jobW`. -/
def rjW : RunningJob := ⟨jobW, []⟩

/-- State `stW2` after the job finishes successfully. -/
def stW3 : ServerState := jobFinish capsOk stW2 rjW

/-- Witness for C6: along the concrete trace schedule/start/finish for
workspace `w1`, the final state has `w1` Ready and its config-cache entry
present. -/
theorem config_cache_invariant_spec_witness :
    (alookup stW3.workspaceConfigCache "w1").isSome := by
  have hre1 : Reachable capsOk stW1 :=
    Reachable.step (Op.initCompile "w1" ⟨[], 0⟩) (Reachable.init [] []) rfl
  have hre2 : Reachable capsOk stW2 := Reachable.step (Op.start jobW) hre1 (by decide)
  have hre : Reachable capsOk stW3 := Reachable.step (Op.finish rjW) hre2 (by decide)
  exact (config_cache_invariant_spec.2 capsOk stW3 hre).2 "w1" ⟨[], 7, [3, 4]⟩
    (Or.inr (by decide))

/-! ### C8 -/

/-- C8: `respond` emits the response message exactly when its request id is
still pending (registered and not completed) in the incoming queue; after a
first `respond` or after the id is completed (e.g. by a client cancel), a
`respond` with the same id sends nothing. -/
theorem respond_spec (q : ReqQueueIncoming) (r : RespMsg) :
    ((respond q r).2 = [r] ↔ (alookup q.pending r.id).isSome)
    ∧ ((respond q r).2 = [] ↔ alookup q.pending r.id = none)
    ∧ (respond (respond q r).1 r).2 = []
    ∧ (respond (completeRequest q r.id) r).2 = [] := by
  cases hlk : alookup q.pending r.id with
  | none =>
    refine ⟨?_, ?_, ?_, ?_⟩ <;>
      simp [respond, completeRequest, hlk, alookup_aremove_self]
  | some d =>
    refine ⟨?_, ?_, ?_, ?_⟩ <;>
      simp [respond, completeRequest, hlk, alookup_aremove_self]

/-- Witness for C8: a registered id gets exactly one response; the second
respond and a respond after completion send nothing. -/
theorem respond_spec_witness :
    (respond ⟨[(5, ("textDocument/hover", 0))]⟩ ⟨5, 9⟩).2 = [⟨5, 9⟩]
      ∧ (respond (respond ⟨[(5, ("textDocument/hover", 0))]⟩ ⟨5, 9⟩).1 ⟨5, 9⟩).2 = []
      ∧ (respond (completeRequest ⟨[(5, ("textDocument/hover", 0))]⟩ 5) ⟨5, 9⟩).2 = [] := by
  have h := respond_spec ⟨[(5, ("textDocument/hover", 0))]⟩ ⟨5, 9⟩
  exact ⟨h.1.mpr (by decide), h.2.2.1, h.2.2.2⟩

/-! ### C9 -/

/-- C9 (refuted by the code): `process_changed_file` panics on a Modify
change whose `FileId` resolves but has no `opened_files` entry (the
`unwrap` on `opened_files.get`), and on a Create change whose resolved
filename does not convert to a URL (the `unwrap` on `url_from_path`);
the claim says these recoverable inputs are logged and dropped. -/
theorem process_changed_file_panics :
    process_changed_file capsOk ⟨1, ChangeKind.Modify⟩
        ⟨[(1, "a.k")], [], [], [], [], [], [], [], []⟩ = none
      ∧ process_changed_file capsNoUrl ⟨1, ChangeKind.Create⟩
        ⟨[(1, "a.k")], [], [(1, ⟨[]⟩)], [], [], [], [], [], []⟩ = none := by
  constructor <;> rfl

/-! ### C10 -/

/-- C10: with no workspace folders but a root URI whose path conversion and
index build succeed, `update_word_index_state` stores the built index under
the root URI and returns `Ok`; with neither folders nor a root URI it
stores nothing and returns `Ok`. -/
theorem update_word_index_state_spec (fpfu : Url → Except Unit Path)
    (bwi : Path → Except Unit WordIndex) (m : List (Url × WordIndex)) :
    (∀ root p wi, fpfu root = Except.ok p → bwi p = Except.ok wi →
      update_word_index_state fpfu bwi ⟨none, some root⟩ m = Except.ok (ainsert m root wi)
      ∧ alookup (ainsert m root wi) root = some wi)
    ∧ update_word_index_state fpfu bwi ⟨none, none⟩ m = Except.ok m := by
  constructor
  · intro root p wi h1 h2
    constructor
    · simp [update_word_index_state, h1, h2, Except.bind, Bind.bind, pure, Except.pure]
    · exact alookup_ainsert_self _ _ _
  · rfl

/-- Witness for C10 at a concrete root URI and at empty parameters. -/
theorem update_word_index_state_spec_witness :
    update_word_index_state (fun u => Except.ok ("p:".append u)) (fun _ => Except.ok 42)
        ⟨none, some "root"⟩ [] = Except.ok [("root", 42)]
      ∧ update_word_index_state (fun u => Except.ok ("p:".append u)) (fun _ => Except.ok 42)
        ⟨none, none⟩ [] = Except.ok [] := by
  have h := update_word_index_state_spec (fun u => Except.ok ("p:".append u))
    (fun _ => Except.ok 42) []
  exact ⟨(h.1 "root" "p:root" 42 rfl rfl).1, h.2⟩

end KclLsp
